import Mathlib

/-!
# Catalogue JsLibrary: heading slugs, callout containers, templates, search index

A shallow embedding of `src/Catalogue/JsLibrary/catalogue.js` and
`src/Catalogue/JsLibrary/callout.js`, followed by the properties established
about them.

JavaScript strings are embedded as Lean strings, and the three regular
expression replacements of `slugify` work on the character list of the string.
Characters outside the Basic Multilingual Plane are two UTF-16 code units in
JavaScript and one `Char` here; both forms are deleted by the first replacement
of `slugify`, so the difference is not observable in its result.

Global variables become explicit state that is passed in and returned. The
libraries the code calls (markdown-it and its plugins, handlebars, lunr) and the
built-ins `JSON.parse` and `JSON.stringify` are parameters. A thrown exception is
the `error` case of `Except`. The objects `templates` and `store` are created by
the literal `{}`: they are embedded by their own properties, with the members
inherited from `Object.prototype` taken into account where the code reads or
writes a property by a computed name.
-/

set_option autoImplicit false

namespace Catalogue

/-! ## Character classes of the regular expressions in `slugify` -/

/-- The characters `a`..`z`. -/
def isLowerAscii (c : Char) : Bool := decide (97 ≤ c.toNat ∧ c.toNat ≤ 122)

/-- The characters `A`..`Z`. -/
def isUpperAscii (c : Char) : Bool := decide (65 ≤ c.toNat ∧ c.toNat ≤ 90)

/-- The characters `0`..`9`. -/
def isDigitAscii (c : Char) : Bool := decide (48 ≤ c.toNat ∧ c.toNat ≤ 57)

/-- The regular expression class `\w`, which is `[A-Za-z0-9_]` (no `u` or `i` flag). -/
def isWordChar (c : Char) : Bool :=
  isLowerAscii c || isUpperAscii c || isDigitAscii c || decide (c = '_')

/-- The regular expression class `\s`: the ECMAScript WhiteSpace and LineTerminator code
points (tab, line feed, vertical tab, form feed, carriage return, space, no-break space,
U+1680, U+2000..U+200A, U+2028, U+2029, U+202F, U+205F, U+3000, U+FEFF). -/
def isWhiteSpace (c : Char) : Bool :=
  decide (9 ≤ c.toNat ∧ c.toNat ≤ 13) || decide (c.toNat = 32) || decide (c.toNat = 160) ||
  decide (c.toNat = 5760) || decide (8192 ≤ c.toNat ∧ c.toNat ≤ 8202) ||
  decide (c.toNat = 8232) || decide (c.toNat = 8233) || decide (c.toNat = 8239) ||
  decide (c.toNat = 8287) || decide (c.toNat = 12288) || decide (c.toNat = 65279)

/-- The complement of the class `[^\w\s-]`: the characters the first replacement keeps. -/
def isKept (c : Char) : Bool := isWordChar c || isWhiteSpace c || decide (c = '-')

/-- The class `[\s_-]`. -/
def isSeparator (c : Char) : Bool := isWhiteSpace c || decide (c = '_') || decide (c = '-')

/-- The class `[a-z0-9-]`. -/
def isSlugChar (c : Char) : Bool := isLowerAscii c || isDigitAscii c || decide (c = '-')

/-- A character of `[a-z0-9]`. -/
def isAlnumLower (c : Char) : Bool := isLowerAscii c || isDigitAscii c

/-- No two neighbouring characters are both hyphens. -/
def NoDoubleHyphen (l : List Char) : Prop :=
  List.Chain' (fun a b => ¬ (a = '-' ∧ b = '-')) l

/-- A letter, digit, space or punctuation mark of ASCII. -/
def isPlainHeadingChar (c : Char) : Bool :=
  isLowerAscii c || isUpperAscii c || isDigitAscii c || decide (c = ' ') ||
  decide (33 ≤ c.toNat ∧ c.toNat ≤ 47) || decide (58 ≤ c.toNat ∧ c.toNat ≤ 64) ||
  decide (91 ≤ c.toNat ∧ c.toNat ≤ 96) || decide (123 ≤ c.toNat ∧ c.toNat ≤ 126)

/-! ## `String.prototype.toLowerCase` -/

/-- Lower-case form of one character. `A`..`Z` map to `a`..`z`; U+0130 maps to `i` followed
by U+0307 and U+212A (Kelvin sign) maps to `k`, the only two characters outside ASCII whose
Unicode lower-case form contains an ASCII character. Every other character outside ASCII is
left as it is: Unicode maps it to characters outside ASCII that are not white space, and
`slugify` deletes those in its next step exactly as it deletes the original. -/
def lowerChar (c : Char) : List Char :=
  if isUpperAscii c then [Char.ofNat (c.toNat + 32)]
  else if c.toNat = 304 then ['i', Char.ofNat 775]
  else if c.toNat = 8490 then ['k']
  else [c]

/-- The method `s.toLowerCase()` on the characters of `s`. -/
def toLowerCase : List Char → List Char
  | [] => []
  | c :: cs => lowerChar c ++ toLowerCase cs

/-! ## The three replacements of `slugify` (catalogue.js 122-124) -/

/-- The call `.replace(/[^\w\s-]/g, '')`: scanning left to right, every character matched by
`[^\w\s-]` is replaced by the empty string and every other character is copied. -/
def removeNonSlug : List Char → List Char
  | [] => []
  | c :: cs => if isKept c then c :: removeNonSlug cs else removeNonSlug cs

/-- Scanner for `.replace(/[\s_-]+/g, '-')`. The flag tells whether the scan is inside a
match of `[\s_-]+`: the match starts at the first separator, where the replacement `-` is
written, and greedily extends over the separators that follow, which are consumed. -/
def replaceSeparatorsFrom : Bool → List Char → List Char
  | _, [] => []
  | inMatch, c :: cs =>
    if isSeparator c then
      if inMatch then replaceSeparatorsFrom true cs else '-' :: replaceSeparatorsFrom true cs
    else c :: replaceSeparatorsFrom false cs

/-- The call `.replace(/[\s_-]+/g, '-')`. -/
def replaceSeparators (l : List Char) : List Char := replaceSeparatorsFrom false l

/-- The alternative `-+$` of the third replacement, tried at every position after the start:
it matches at a hyphen exactly when only hyphens remain up to the end of the string, and the
match is then replaced by the empty string. -/
def removeTrailingHyphens : List Char → List Char
  | [] => []
  | c :: cs =>
    if c = '-' ∧ cs.all (fun d => decide (d = '-')) = true then []
    else c :: removeTrailingHyphens cs

/-- The call `.replace(/^-+|-+$/g, '')`: at position 0 the alternative `^-+` greedily matches
the leading hyphens; `^` matches nowhere else (no `m` flag), so the rest of the scan can only
match `-+$`. -/
def stripHyphens (l : List Char) : List Char :=
  removeTrailingHyphens (l.dropWhile (fun d => decide (d = '-')))

/-- The chain `s.toLowerCase().replace(..).replace(..).replace(..)` of `slugify`. -/
def normalizeChars (l : List Char) : List Char :=
  stripHyphens (replaceSeparators (removeNonSlug (toLowerCase l)))

/-- The chain of `slugify` on strings. -/
def normalize (s : String) : String := String.mk (normalizeChars s.data)

/-- The function `slugify(s)` (catalogue.js 119-125); `pageName` is the global it reads. -/
def slugify (pageName : String) (s : String) : String :=
  pageName ++ "/" ++ normalize s

/-! ## The normalisation as the specification words it -/

/-- Spec wording: "remove every character that is not a word character, whitespace, or
hyphen". -/
def specRemove (l : List Char) : List Char :=
  l.filter (fun c => isWordChar c || isWhiteSpace c || decide (c = '-'))

/-- Replace every maximal run of characters satisfying `p` by the single character `r`: a
run starts at a character satisfying `p` and extends over all such characters after it. -/
def collapseRuns (p : Char → Bool) (r : Char) : List Char → List Char
  | [] => []
  | c :: cs =>
    if p c then r :: collapseRuns p r (cs.dropWhile p)
    else c :: collapseRuns p r cs
termination_by l => l.length
decreasing_by
  · simp only [List.length_cons]
    exact Nat.lt_succ_of_le (List.dropWhile_sublist p).length_le
  · simp

/-- Spec wording: "collapse every maximal run of whitespace/underscore/hyphen into a single
hyphen". -/
def specCollapse (l : List Char) : List Char := collapseRuns isSeparator '-' l

/-- Spec wording: "strip leading and trailing hyphens". -/
def specStrip (l : List Char) : List Char :=
  (l.dropWhile (fun d => decide (d = '-'))).rdropWhile (fun d => decide (d = '-'))

/-- The normalisation `N` of the specification: lowercase, remove, collapse, strip. -/
def specNormalize (s : String) : String :=
  String.mk (specStrip (specCollapse (specRemove (toLowerCase s.data))))

/-! ## Heading collector (catalogue.js 117-143) -/

/-- The fields of a markdown-it token that the modelled code reads or writes. -/
structure Token where
  type : String
  tag : String
  nesting : Int
  attrs : Option (List (String × String))
  info : String

/-- The second argument markdown-it-anchor passes to its callback. -/
structure AnchorInfo where
  slug : String
  title : String

/-- One element of the global `calls`. -/
structure HeadingRecord where
  Title : String
  Anchor : String
  HeadingLevel : String

/-- The globals `calls` and `pageName`. -/
structure CollectorState where
  calls : List HeadingRecord
  pageName : String

/-- The initial globals: `var calls = []; var pageName = "";`. -/
def CollectorState.initial : CollectorState := { calls := [], pageName := "" }

/-- The function `anchorCallback(token, info)`: `calls.push(..)`. -/
def anchorCallback (st : CollectorState) (token : Token) (info : AnchorInfo) : CollectorState :=
  { st with calls := st.calls ++
      [{ Title := info.title, Anchor := info.slug, HeadingLevel := token.tag }] }

/-- The call `md.render(input)` of the configured renderer, which is external: given the
`slugify` option it was configured with, it returns the HTML and the invocations of the
anchor callback, one per heading, in document order. -/
structure MarkdownRenderer where
  run : (String → String) → String → String × List (Token × AnchorInfo)

/-- The function `render(name, input)`: reset `calls`, set `pageName`, run `md.render`. The
callbacks fire during `md.render`, with `slugify` reading the new `pageName`. -/
def render (md : MarkdownRenderer) (st : CollectorState) (name input : String) :
    String × CollectorState :=
  let st1 : CollectorState := { st with calls := [] }
  let st2 : CollectorState := { st1 with pageName := name }
  let out := md.run (slugify st2.pageName) input
  (out.1, out.2.foldl (fun acc e => anchorCallback acc e.1 e.2) st2)

/-! ## JavaScript values and the built-ins the code calls -/

/-- JavaScript values as far as the modelled code meets them. A number is carried by its
canonical decimal rendering, the code never computes with one. -/
inductive JsValue where
  | undefined
  | null
  | bool (b : Bool)
  | num (rendering : String)
  | str (s : String)
  | array (items : List JsValue)
  | object (props : List (String × JsValue))

/-- Built-ins of the JavaScript runtime that the code calls. A thrown exception is carried
by the string that `"" + e` yields for it. -/
structure Runtime where
  /-- The function `JSON.parse`. -/
  jsonParse : String → Except String JsValue
  /-- The function `JSON.stringify`. -/
  jsonStringify : JsValue → String
  /-- The conversion ToString on an array or an object. -/
  toStringObject : JsValue → String
  /-- Invoking the member of `Object.prototype` with the given name as a method of a plain
  object, with one argument. A member that is not a function raises a TypeError. -/
  callObjectPrototype : String → JsValue → Except String JsValue

/-- The value `calls` as `JSON.stringify` receives it. -/
def callsValue (calls : List HeadingRecord) : JsValue :=
  .array (calls.map (fun r =>
    .object [("Title", .str r.Title), ("Anchor", .str r.Anchor),
      ("HeadingLevel", .str r.HeadingLevel)]))

/-- The function `getHeadings()`: `JSON.stringify(calls)`. -/
def getHeadings (rt : Runtime) (st : CollectorState) : String :=
  rt.jsonStringify (callsValue st.calls)

/-! ## Templates (catalogue.js 148-177) -/

/-- A function returned by `handlebars.compile`: applied to a context it returns the text or
throws. Handlebars compiles lazily, so errors in the template source appear here. -/
abbrev Template := JsValue → Except String String

/-- The external `handlebars.compile`. -/
structure Handlebars where
  compile : String → Template

/-- The property names every plain object inherits from `Object.prototype`. -/
def objectPrototypeNames : List String :=
  ["constructor", "__defineGetter__", "__defineSetter__", "hasOwnProperty",
   "__lookupGetter__", "__lookupSetter__", "isPrototypeOf", "propertyIsEnumerable",
   "toString", "valueOf", "__proto__", "toLocaleString"]

/-- The global `templates`, created by the literal `{}`: its own properties. Its prototype
is `Object.prototype`. -/
abbrev TemplateCache := List (String × Template)

/-- The initial `templates = {}`. -/
def TemplateCache.empty : TemplateCache := []

/-- What the property read `templates[templateName]` finds. -/
inductive Slot where
  | template (t : Template)
  | inherited (name : String)
  | absent

/-- The property read `templates[templateName]`: an own property first, then the prototype
chain, which ends at `Object.prototype`; `absent` stands for `undefined`. -/
def TemplateCache.get (templates : TemplateCache) (templateName : String) : Slot :=
  match templates.lookup templateName with
  | some t => .template t
  | none => if templateName ∈ objectPrototypeNames then .inherited templateName else .absent

/-- The array index a property key stands for, if any: the canonical decimal form (no
leading zero) of a number up to 2^32 - 2. -/
def arrayIndex (key : String) : Option Nat :=
  match key.data with
  | [] => none
  | c :: cs =>
    if (c :: cs).all isDigitAscii && (decide (c ≠ '0') || cs.isEmpty) then
      let n := (c :: cs).foldl (fun acc d => 10 * acc + (d.toNat - 48)) 0
      if n ≤ 4294967294 then some n else none
    else none

/-- Place of a new property whose key is the array index `n`: after the array indices
below `n`, before every other property. -/
def insertIndexed {α : Type} (n : Nat) (key : String) (value : α) :
    List (String × α) → List (String × α)
  | [] => [(key, value)]
  | q :: qs =>
    match arrayIndex q.1 with
    | some m => if m < n then q :: insertIndexed n key value qs else (key, value) :: q :: qs
    | none => (key, value) :: q :: qs

/-- Own-property assignment `obj[key] = value` for a key other than `__proto__`, on the own
properties in the order in which the object enumerates them (array indices ascending, then
the other keys in the order of their creation): an existing property keeps its place, a new
array index goes to its place among the indices, any other new key goes to the end. -/
def setOwn {α : Type} (props : List (String × α)) (key : String) (value : α) :
    List (String × α) :=
  if props.any (fun p => p.1 == key) then
    props.map (fun p => if p.1 == key then (key, value) else p)
  else
    match arrayIndex key with
    | some n => insertIndexed n key value props
    | none => props ++ [(key, value)]

/-- The function `compile(templateName, template)`. The name `__proto__` is excluded: that
assignment would replace the prototype of `templates` by the compiled function. -/
def compile (hb : Handlebars) (templates : TemplateCache) (templateName template : String)
    (_h : templateName ≠ "__proto__") : Bool × TemplateCache :=
  (true, setOwn templates templateName (hb.compile template))

/-- The call `templates[templateName](arg)` once the property read found `slot`. -/
def Slot.call (rt : Runtime) (slot : Slot) (arg : JsValue) : Except String JsValue :=
  match slot with
  | .template t => (t arg).map JsValue.str
  | .inherited name => rt.callObjectPrototype name arg
  | .absent => .error "TypeError: templates[templateName] is not a function"

/-- The function `transform(templateName, data)`. -/
def transform (rt : Runtime) (templates : TemplateCache) (templateName data : String) :
    JsValue :=
  match templates.get templateName with
  | .absent => .str ("Template:" ++ templateName ++ " not found.")
  | slot =>
    match rt.jsonParse data >>= slot.call rt with
    | .ok result => result
    | .error e => .str ("Template:" ++ templateName ++
        " cannot be used. It could be due to errors in template or it is not registered correctly. Error:"
        ++ e)

/-- The function `compileAndTransform(templateContent, data)`. -/
def compileAndTransform (rt : Runtime) (hb : Handlebars) (templateContent data : String) :
    String :=
  let template := hb.compile templateContent
  match rt.jsonParse data >>= template with
  | .ok result => result
  | .error e => "Cannot compile the template. Error:" ++ e

/-! ## Search index (catalogue.js 307-328) -/

/-- The external lunr index: `index.add(doc)` and `index.toJSON()`. -/
structure Lunr (σ : Type) where
  add : σ → JsValue → Except String σ
  toJSON : σ → JsValue

/-- The property reads `doc.id`, `doc.title`, `doc.href`; none of these three names is on a
built-in prototype, so a value without such an own property yields `undefined`, and reading
a property of `null` or `undefined` throws. -/
def getField (doc : JsValue) (name : String) : Except String JsValue :=
  match doc with
  | .undefined => .error ("TypeError: Cannot read property " ++ name ++ " of undefined")
  | .null => .error ("TypeError: Cannot read property " ++ name ++ " of null")
  | .object props => .ok ((props.lookup name).getD .undefined)
  | _ => .ok .undefined

/-- The conversion of `doc.id` to a property key (ToPropertyKey): a string is its own key,
any other value is keyed by its string form. -/
def propertyKey (rt : Runtime) (v : JsValue) : String :=
  match v with
  | .str s => s
  | .num rendering => rendering
  | .bool true => "true"
  | .bool false => "false"
  | .null => "null"
  | .undefined => "undefined"
  | other => rt.toStringObject other

/-- The assignment `store[key] = value` on the object `store = {}`, as far as its own
properties go. For the key `__proto__` the assignment runs the setter inherited from
`Object.prototype`, which replaces the prototype of `store` by `value` (an object) and adds
no own property. -/
def storeSet (store : List (String × JsValue)) (key : String) (value : JsValue) :
    List (String × JsValue) :=
  if key = "__proto__" then store else setOwn store key value

/-- The body of the `docs.forEach` callback on the index and the store. -/
def addDoc {σ : Type} (rt : Runtime) (lunr : Lunr σ) (acc : σ × List (String × JsValue))
    (doc : JsValue) : Except String (σ × List (String × JsValue)) := do
  let index ← lunr.add acc.1 doc
  let id ← getField doc "id"
  let title ← getField doc "title"
  let href ← getField doc "href"
  pure (index, storeSet acc.2 (propertyKey rt id) (.object [("title", title), ("href", href)]))

/-- The loop `docs.forEach(..)` over the elements of an array, from an empty store. -/
def addDocs {σ : Type} (rt : Runtime) (lunr : Lunr σ) :
    σ × List (String × JsValue) → List JsValue → Except String (σ × List (String × JsValue))
  | acc, [] => .ok acc
  | acc, doc :: docs =>
    match addDoc rt lunr acc doc with
    | .ok acc1 => addDocs rt lunr acc1 docs
    | .error e => .error e

/-- The body of `createIndex(data)` up to the object literal
`{ index: index.toJSON(), store: store }` that it hands to `JSON.stringify`; the global
`index` is passed in and returned. Nothing in it catches an exception. -/
def createIndexValue {σ : Type} (rt : Runtime) (lunr : Lunr σ) (index : σ) (data : String) :
    Except String (JsValue × σ) :=
  match rt.jsonParse data with
  | .error e => .error e
  | .ok (.array docs) =>
    match addDocs rt lunr (index, []) docs with
    | .error e => .error e
    | .ok (index1, store) =>
      .ok (.object [("index", lunr.toJSON index1), ("store", .object store)], index1)
  | .ok .undefined => .error "TypeError: Cannot read property forEach of undefined"
  | .ok .null => .error "TypeError: Cannot read property forEach of null"
  | .ok _ => .error "TypeError: docs.forEach is not a function"

/-- The function `createIndex(data)`: `JSON.stringify` of that object literal. -/
def createIndex {σ : Type} (rt : Runtime) (lunr : Lunr σ) (index : σ) (data : String) :
    Except String (String × σ) :=
  match createIndexValue rt lunr index data with
  | .error e => .error e
  | .ok (value, index1) => .ok (rt.jsonStringify value, index1)

/-! ## Callout plugin (callout.js) -/

/-- The method `Token.prototype.attrPush` of markdown-it: append to `attrs`, creating the
array when the token has none. -/
def Token.attrPush (t : Token) (attrData : String × String) : Token :=
  match t.attrs with
  | some attrs => { t with attrs := some (attrs ++ [attrData]) }
  | none => { t with attrs := some [attrData] }

/-- A renderer rule `function (tokens, idx, options, env, self)`. The arguments `options`,
`env` and `self` are handed on untouched by the code and are bundled in `ε`. A rule returns
its HTML together with the token array as it leaves it. markdown-it calls a rule with a valid
index `idx` only. -/
abbrev RenderRule (ε : Type) := List Token → Nat → ε → String × List Token

/-- The render closure given to markdown-it-container for one name: from the token
`tokens[idx]` and the current `containerOpenCount` to the HTML and the new count. -/
abbrev ContainerRender := Token → Int → String × Int

/-- The parts of the markdown-it instance `md` that the plugin touches. A rule of the table
`md.renderer.rules` may read the closure variable `containerOpenCount`, so it takes the
current count as its first argument. -/
structure MarkdownIt (ε : Type) where
  /-- Names registered through `md.use(container, name, ..)`, with their render closure. -/
  containers : List (String × ContainerRender)
  /-- The entry `md.renderer.rules.link_open`. -/
  link_open : Option (Int → RenderRule ε)
  /-- The method `md.renderer.renderToken`, reached as `self.renderToken`. -/
  renderToken : RenderRule ε

/-- The render closure of `setupContainerCallouts(name)`. -/
def calloutRender (name : String) : ContainerRender := fun token containerOpenCount =>
  if token.nesting = 1 then
    ("<div class=\"callout callout-" ++ name ++ "\">\n", containerOpenCount + 1)
  else ("</div>\n", containerOpenCount - 1)

/-- The render closure of `setupContainer(name)`. -/
def alertRender (name : String) : ContainerRender := fun token containerOpenCount =>
  if token.nesting = 1 then
    ("<div class=\"alert " ++ name ++ "\" role=\"alert\">\n", containerOpenCount + 1)
  else ("</div>\n", containerOpenCount - 1)

/-- The function `setupContainerCallouts(name)`. -/
def setupContainerCallouts {ε : Type} (md : MarkdownIt ε) (name : String) : MarkdownIt ε :=
  { md with containers := md.containers ++ [(name, calloutRender name)] }

/-- The function `setupContainer(name)`. -/
def setupContainer {ε : Type} (md : MarkdownIt ε) (name : String) : MarkdownIt ε :=
  { md with containers := md.containers ++ [(name, alertRender name)] }

/-- The function `isContainerOpen()`. -/
def isContainerOpen (containerOpenCount : Int) : Bool := decide (containerOpenCount > 0)

/-- The function `selfRender(tokens, idx, options, env, self)`. -/
def selfRender {ε : Type} (md : MarkdownIt ε) : RenderRule ε := fun tokens idx env =>
  md.renderToken tokens idx env

/-- The rule that `setupLinks` installs, around `defaultRender`. -/
def linkOpenRule {ε : Type} (defaultRender : Int → RenderRule ε) : Int → RenderRule ε :=
  fun containerOpenCount tokens idx env =>
    if isContainerOpen containerOpenCount then
      defaultRender containerOpenCount
        (tokens.modify (fun t => t.attrPush ("class", "alert-link")) idx) idx env
    else defaultRender containerOpenCount tokens idx env

/-- The value `md.renderer.rules.link_open || selfRender`. -/
def defaultLinkRender {ε : Type} (md : MarkdownIt ε) : Int → RenderRule ε :=
  match md.link_open with
  | some rule => rule
  | none => fun _ => selfRender md

/-- The function `setupLinks()`. -/
def setupLinks {ε : Type} (md : MarkdownIt ε) : MarkdownIt ε :=
  { md with link_open := some (linkOpenRule (defaultLinkRender md)) }

/-- The `options` argument of the plugin: an object whose `links` property may be unset. -/
structure Options where
  links : Option Bool

/-- The function `init()`; `links` is the closure variable, `none` standing for
`undefined`. -/
def init {ε : Type} (md : MarkdownIt ε) (links : Option Bool) : MarkdownIt ε :=
  let md := setupContainerCallouts md "success"
  let md := setupContainerCallouts md "info"
  let md := setupContainerCallouts md "warning"
  let md := setupContainerCallouts md "danger"
  let md := setupContainer md "alert-success"
  let md := setupContainer md "alert-info"
  let md := setupContainer md "alert-warning"
  let md := setupContainer md "alert-danger"
  if links = some true then setupLinks md else md

/-- The plugin function `callout_plugin(md, options)`; `options` is `none` when the caller
passes no second argument. -/
def callout_plugin {ε : Type} (md : MarkdownIt ε) (options : Option Options) : MarkdownIt ε :=
  let links : Option Bool :=
    match options with
    | some o => o.links
    | none => some true
  init md links

/-- The eight container names of `init`. -/
def containerNames : List String :=
  ["success", "info", "warning", "danger",
   "alert-success", "alert-info", "alert-warning", "alert-danger"]

/-- The render closure in force for a container name: the one registered last. -/
def containerRule {ε : Type} (md : MarkdownIt ε) (name : String) : Option ContainerRender :=
  md.containers.reverse.lookup name

/-- Rendering one container token of the given name: the count after the call. A name
without a rule of this plugin leaves the count alone. -/
def renderContainerToken {ε : Type} (md : MarkdownIt ε) (containerOpenCount : Int)
    (e : String × Token) : Int :=
  match containerRule md e.1 with
  | some rule => (rule e.2 containerOpenCount).2
  | none => containerOpenCount

/-- The count after rendering a sequence of container tokens. -/
def renderContainerTokens {ε : Type} (md : MarkdownIt ε) (containerOpenCount : Int)
    (es : List (String × Token)) : Int :=
  es.foldl (renderContainerToken md) containerOpenCount

/-- The token markdown-it-container emits when a container opens. -/
def openToken (name : String) : Token :=
  { type := "container_" ++ name ++ "_open", tag := "div", nesting := 1, attrs := none,
    info := name }

/-- The token markdown-it-container emits when a container closes. -/
def closeToken (name : String) : Token :=
  { type := "container_" ++ name ++ "_close", tag := "div", nesting := -1, attrs := none,
    info := "" }

/-- Properly nested sequences of container tokens over the given names. -/
inductive Balanced (names : List String) : List (String × Token) → Prop where
  | nil : Balanced names []
  | nest (name : String) (inner : List (String × Token)) :
      name ∈ names → Balanced names inner →
      Balanced names ((name, openToken name) :: inner ++ [(name, closeToken name)])
  | append (a b : List (String × Token)) :
      Balanced names a → Balanced names b → Balanced names (a ++ b)

/-- The sequence open success, open info, close info, close success. -/
def nestedExample : List (String × Token) :=
  [("success", openToken "success"), ("info", openToken "info"),
   ("info", closeToken "info"), ("success", closeToken "success")]

/-- A markdown-it instance before any plugin touched it: no container, no `link_open` rule;
its `renderToken` is kept trivial. -/
def bareMarkdownIt : MarkdownIt Unit :=
  { containers := [], link_open := none, renderToken := fun tokens _ _ => ("", tokens) }

/-! ## Values for the examples -/

/-- A document whose id is `__proto__`. -/
def protoDoc : JsValue :=
  .object [("id", .str "__proto__"), ("title", .str "t"), ("href", .str "h")]

/-- The JSON text of the array that holds `protoDoc` alone. -/
def protoDocsJson : String := "[\x7b\"id\":\"__proto__\",\"title\":\"t\",\"href\":\"h\"\x7d]"

/-- Two documents whose ids are the number 1 and the string `1`. -/
def collidingDocs : List JsValue :=
  [.object [("id", .num "1"), ("title", .str "a"), ("href", .str "x")],
   .object [("id", .str "1"), ("title", .str "b"), ("href", .str "y")]]

/-- The JSON text of `collidingDocs`. -/
def collidingDocsJson : String :=
  "[\x7b\"id\":1,\"title\":\"a\",\"href\":\"x\"\x7d,\x7b\"id\":\"1\",\"title\":\"b\",\"href\":\"y\"\x7d]"

/-- Two documents with the string ids `a` and `b`. -/
def plainDocs : List JsValue :=
  [.object [("id", .str "a"), ("title", .str "A"), ("href", .str "/a")],
   .object [("id", .str "b"), ("title", .str "B"), ("href", .str "/b")]]

/-- The JSON text of `plainDocs`. -/
def plainDocsJson : String :=
  "[\x7b\"id\":\"a\",\"title\":\"A\",\"href\":\"/a\"\x7d,\x7b\"id\":\"b\",\"title\":\"B\",\"href\":\"/b\"\x7d]"

/-- A runtime cut down to the calls the examples make: `JSON.parse` of the text `\x7b\x7d`
and of the three document arrays above (any other text counts as malformed), and `toString`
of `Object.prototype`. No example evaluates its `JSON.stringify`, which returns the empty
text. -/
def exampleRuntime : Runtime :=
  { jsonParse := fun text =>
      if text = "\x7b\x7d" then .ok (.object [])
      else if text = protoDocsJson then .ok (.array [protoDoc])
      else if text = collidingDocsJson then .ok (.array collidingDocs)
      else if text = plainDocsJson then .ok (.array plainDocs)
      else .error "SyntaxError: Unexpected token in JSON",
    jsonStringify := fun _ => "",
    toStringObject := fun _ => "[object Object]",
    callObjectPrototype := fun name _ =>
      if name = "toString" then .ok (.str "[object Object]")
      else .error "TypeError: not a function" }

/-- An index that only counts the documents added to it. -/
def exampleLunr : Lunr Nat :=
  { add := fun count _ => .ok (count + 1), toJSON := fun count => .num (toString count) }

/-- A template engine whose templates all render the empty text. -/
def exampleHandlebars : Handlebars :=
  { compile := fun _ _ => .ok "" }

end Catalogue

namespace Catalogue

/-! ## Lemmas on the character classes -/

theorem toNat_ofNat_small (n : Nat) (h : n < 55296) : (Char.ofNat n).toNat = n := by
  have hv : n.isValidChar := Or.inl h
  simp [Char.ofNat, hv, Char.ofNatAux, Char.toNat, UInt32.toNat]

theorem toNat_hyphen {c : Char} (h : c = '-') : c.toNat = 45 := by
  subst h; rfl

theorem toNat_underscore {c : Char} (h : c = '_') : c.toNat = 95 := by
  subst h; rfl

theorem isSlugChar_iff (c : Char) :
    isSlugChar c = true ↔ isAlnumLower c = true ∨ c = '-' := by
  simp [isSlugChar, isAlnumLower, or_assoc]

theorem isSeparator_of_alnum {c : Char} (h : isAlnumLower c = true) : isSeparator c = false := by
  simp only [isAlnumLower, isLowerAscii, isDigitAscii, Bool.or_eq_true, decide_eq_true_eq] at h
  have h1 : c ≠ '_' := fun e => by have := toNat_underscore e; omega
  have h2 : c ≠ '-' := fun e => by have := toNat_hyphen e; omega
  simp only [isSeparator, isWhiteSpace, h1, h2, decide_False, Bool.or_false, Bool.or_eq_false_iff,
    decide_eq_false_iff_not]
  omega

theorem ne_hyphen_of_alnum {c : Char} (h : isAlnumLower c = true) : c ≠ '-' := by
  simp only [isAlnumLower, isLowerAscii, isDigitAscii, Bool.or_eq_true, decide_eq_true_eq] at h
  intro e; have := toNat_hyphen e; omega

theorem isSeparator_hyphen : isSeparator '-' = true := by decide

theorem isKept_of_slug {c : Char} (h : isSlugChar c = true) : isKept c = true := by
  simp only [isSlugChar, Bool.or_eq_true, decide_eq_true_eq] at h
  simp only [isKept, isWordChar, Bool.or_eq_true, decide_eq_true_eq]
  tauto

theorem not_upper_of_slug {c : Char} (h : isSlugChar c = true) : isUpperAscii c = false := by
  simp only [isSlugChar, isLowerAscii, isDigitAscii, Bool.or_eq_true, decide_eq_true_eq] at h
  simp only [isUpperAscii, decide_eq_false_iff_not]
  rcases h with (h | h) | h
  · omega
  · omega
  · have := toNat_hyphen h; omega

theorem lowerChar_of_slug {c : Char} (h : isSlugChar c = true) : lowerChar c = [c] := by
  have hu := not_upper_of_slug h
  simp only [isSlugChar, isLowerAscii, isDigitAscii, Bool.or_eq_true, decide_eq_true_eq] at h
  have h1 : c.toNat ≠ 304 := by
    rcases h with (h | h) | h
    · omega
    · omega
    · have := toNat_hyphen h; omega
  have h2 : c.toNat ≠ 8490 := by
    rcases h with (h | h) | h
    · omega
    · omega
    · have := toNat_hyphen h; omega
  simp [lowerChar, hu, h1, h2]

/-- Every character produced by `toLowerCase` is outside `A`..`Z`. -/
theorem lowerChar_not_upper (c : Char) : ∀ d ∈ lowerChar c, isUpperAscii d = false := by
  intro d hd
  unfold lowerChar at hd
  split at hd
  · rename_i hu
    simp only [List.mem_singleton] at hd
    simp only [isUpperAscii, decide_eq_true_eq] at hu
    subst hd
    simp only [isUpperAscii, decide_eq_false_iff_not]
    rw [toNat_ofNat_small _ (by omega)]
    omega
  · split at hd
    · simp only [List.mem_cons, List.mem_singleton, List.not_mem_nil, or_false] at hd
      rcases hd with rfl | rfl <;> decide
    · split at hd
      · simp only [List.mem_singleton] at hd
        subst hd; decide
      · rename_i hu _ _
        simp only [List.mem_singleton] at hd
        subst hd
        simpa using hu

theorem toLowerCase_not_upper (l : List Char) : ∀ d ∈ toLowerCase l, isUpperAscii d = false := by
  induction l with
  | nil => intro d hd; simp [toLowerCase] at hd
  | cons c cs ih =>
    intro d hd
    simp only [toLowerCase, List.mem_append] at hd
    rcases hd with hd | hd
    · exact lowerChar_not_upper c d hd
    · exact ih d hd

theorem toLowerCase_of_slug (l : List Char) (h : ∀ c ∈ l, isSlugChar c = true) :
    toLowerCase l = l := by
  induction l with
  | nil => rfl
  | cons c cs ih =>
    simp only [toLowerCase]
    rw [lowerChar_of_slug (h c (List.mem_cons_self _ _)),
      ih (fun d hd => h d (List.mem_cons_of_mem _ hd))]
    rfl

/-- A kept character outside `A`..`Z` is a separator or belongs to `[a-z0-9]`. -/
theorem kept_cases {c : Char} (hk : isKept c = true) (hu : isUpperAscii c = false) :
    isSeparator c = true ∨ isAlnumLower c = true := by
  simp only [isKept, isWordChar, Bool.or_eq_true, decide_eq_true_eq] at hk
  simp only [isSeparator, isAlnumLower, Bool.or_eq_true, decide_eq_true_eq]
  rw [hu] at hk
  simp only [Bool.false_eq_true, or_false] at hk
  tauto

/-! ## The replacements of the source and the wording of the specification agree -/

theorem removeNonSlug_eq_specRemove (l : List Char) : removeNonSlug l = specRemove l := by
  induction l with
  | nil => rfl
  | cons c cs ih =>
    by_cases h : isKept c = true
    · have h2 : (isWordChar c || isWhiteSpace c || decide (c = '-')) = true := h
      simp only [removeNonSlug, h, if_true, specRemove, List.filter_cons, h2]
      rw [ih]; rfl
    · have h2 : ¬ (isWordChar c || isWhiteSpace c || decide (c = '-')) = true := h
      simp only [removeNonSlug, h, if_false, specRemove, List.filter_cons, h2]
      rw [ih]; rfl

theorem replaceSeparatorsFrom_true (l : List Char) :
    replaceSeparatorsFrom true l = replaceSeparatorsFrom false (l.dropWhile isSeparator) := by
  induction l with
  | nil => rfl
  | cons c cs ih =>
    by_cases h : isSeparator c = true
    · simp only [replaceSeparatorsFrom, h, if_true, List.dropWhile_cons]
      exact ih
    · simp only [replaceSeparatorsFrom, h, if_false, List.dropWhile_cons]
      simp [replaceSeparatorsFrom, h]

theorem specCollapse_nil : specCollapse [] = [] := by
  unfold specCollapse; rw [collapseRuns]

theorem specCollapse_cons (c : Char) (cs : List Char) :
    specCollapse (c :: cs) =
      if isSeparator c then '-' :: specCollapse (cs.dropWhile isSeparator)
      else c :: specCollapse cs := by
  unfold specCollapse; rw [collapseRuns]

theorem replaceSeparators_eq_specCollapse_aux (n : Nat) :
    ∀ l : List Char, l.length ≤ n → replaceSeparatorsFrom false l = specCollapse l := by
  induction n with
  | zero =>
    intro l hl
    have : l = [] := List.eq_nil_of_length_eq_zero (Nat.le_zero.mp hl)
    subst this
    rw [specCollapse_nil, replaceSeparatorsFrom]
  | succ n ih =>
    intro l hl
    cases l with
    | nil => rw [specCollapse_nil, replaceSeparatorsFrom]
    | cons c cs =>
      have hcs : cs.length ≤ n := by simpa using hl
      rw [specCollapse_cons]
      by_cases h : isSeparator c = true
      · simp only [replaceSeparatorsFrom, h, if_true, Bool.false_eq_true, if_false]
        rw [replaceSeparatorsFrom_true]
        rw [ih _ (le_trans (List.dropWhile_sublist isSeparator).length_le hcs)]
      · simp only [replaceSeparatorsFrom, h, if_false]
        rw [ih _ hcs]
        simp

theorem replaceSeparators_eq_specCollapse (l : List Char) :
    replaceSeparators l = specCollapse l :=
  replaceSeparators_eq_specCollapse_aux l.length l (le_refl _)

theorem removeTrailingHyphens_eq_rdropWhile (l : List Char) :
    removeTrailingHyphens l = l.rdropWhile (fun d => decide (d = '-')) := by
  induction l with
  | nil => rfl
  | cons c cs ih =>
    by_cases h : c = '-' ∧ cs.all (fun d => decide (d = '-')) = true
    · simp only [removeTrailingHyphens, h, and_self, if_true]
      symm
      rw [List.rdropWhile_eq_nil_iff]
      intro x hx
      rcases List.mem_cons.mp hx with rfl | hx
      · simp [h.1]
      · exact (List.all_eq_true.mp h.2) x hx
    · simp only [removeTrailingHyphens, h, if_false]
      rw [ih]
      simp only [List.rdropWhile, List.reverse_cons, List.dropWhile_append]
      split
      · rename_i hemp
        have hall : ∀ x ∈ cs, decide (x = '-') = true := by
          have h0 : List.dropWhile (fun d => decide (d = '-')) cs.reverse = [] := by
            simpa [List.isEmpty_iff] using hemp
          intro x hx
          exact (List.dropWhile_eq_nil_iff.mp h0) x (List.mem_reverse.mpr hx)
        have hc : c ≠ '-' := fun e => h ⟨e, List.all_eq_true.mpr hall⟩
        have h0 : List.dropWhile (fun d => decide (d = '-')) cs.reverse = [] := by
          simpa [List.isEmpty_iff] using hemp
        simp [h0, hc]
      · simp

theorem stripHyphens_eq_specStrip (l : List Char) : stripHyphens l = specStrip l := by
  simp only [stripHyphens, specStrip, removeTrailingHyphens_eq_rdropWhile]

theorem normalize_eq_specNormalize (s : String) : normalize s = specNormalize s := by
  simp only [normalize, specNormalize, normalizeChars, removeNonSlug_eq_specRemove,
    replaceSeparators_eq_specCollapse, stripHyphens_eq_specStrip]

/-! ## Shape of the normalised text -/

theorem removeNonSlug_cases (l : List Char) (hu : ∀ c ∈ l, isUpperAscii c = false) :
    ∀ c ∈ removeNonSlug l, isSeparator c = true ∨ isAlnumLower c = true := by
  intro c hc
  rw [removeNonSlug_eq_specRemove] at hc
  have hc2 := List.mem_filter.mp hc
  exact kept_cases hc2.2 (hu c hc2.1)

theorem replaceSeparatorsFrom_slug (l : List Char)
    (h : ∀ c ∈ l, isSeparator c = true ∨ isAlnumLower c = true) :
    ∀ b, ∀ d ∈ replaceSeparatorsFrom b l, isSlugChar d = true := by
  induction l with
  | nil => intro b d hd; simp [replaceSeparatorsFrom] at hd
  | cons c cs ih =>
    have ih2 := ih (fun d hd => h d (List.mem_cons_of_mem _ hd))
    intro b d hd
    by_cases hs : isSeparator c = true
    · cases b with
      | true =>
        simp only [replaceSeparatorsFrom, hs, if_true] at hd
        exact ih2 true d hd
      | false =>
        simp only [replaceSeparatorsFrom, hs, if_true, Bool.false_eq_true, if_false,
          List.mem_cons] at hd
        rcases hd with rfl | hd
        · decide
        · exact ih2 true d hd
    · simp only [replaceSeparatorsFrom, hs, Bool.false_eq_true, if_false, List.mem_cons] at hd
      rcases hd with rfl | hd
      · rcases h d (List.mem_cons_self _ _) with h1 | h1
        · exact absurd h1 hs
        · exact (isSlugChar_iff d).mpr (Or.inl h1)
      · exact ih2 false d hd

theorem replaceSeparatorsFrom_chain (l : List Char)
    (h : ∀ c ∈ l, isSeparator c = true ∨ isAlnumLower c = true) :
    ∀ b, NoDoubleHyphen (replaceSeparatorsFrom b l) ∧
      (b = true → (replaceSeparatorsFrom b l).head? ≠ some '-') := by
  induction l with
  | nil =>
    intro b
    simp [replaceSeparatorsFrom, NoDoubleHyphen]
  | cons c cs ih =>
    have ih2 := ih (fun d hd => h d (List.mem_cons_of_mem _ hd))
    intro b
    by_cases hs : isSeparator c = true
    · cases b with
      | true =>
        simp only [replaceSeparatorsFrom, hs, if_true]
        exact ⟨(ih2 true).1, fun _ => (ih2 true).2 rfl⟩
      | false =>
        simp only [replaceSeparatorsFrom, hs, if_true, Bool.false_eq_true, if_false]
        refine ⟨?_, fun hb => absurd hb (by decide)⟩
        unfold NoDoubleHyphen
        rw [List.chain'_cons']
        refine ⟨?_, (ih2 true).1⟩
        intro y hy hyy
        have hy2 : (replaceSeparatorsFrom true cs).head? = some y := by simpa using hy
        exact (ih2 true).2 rfl (by rw [hy2, hyy.2])
    · have hc : c ≠ '-' := by
        rcases h c (List.mem_cons_self _ _) with h1 | h1
        · exact absurd h1 hs
        · exact ne_hyphen_of_alnum h1
      simp only [replaceSeparatorsFrom, hs, Bool.false_eq_true, if_false]
      refine ⟨?_, fun _ => by simpa using hc⟩
      unfold NoDoubleHyphen
      rw [List.chain'_cons']
      exact ⟨fun y _ hyy => hc hyy.1, (ih2 false).1⟩

theorem specStrip_head (l : List Char) : (specStrip l).head? ≠ some '-' := by
  unfold specStrip
  have hm := List.head?_dropWhile_not (fun d => decide (d = '-')) l
  generalize List.dropWhile (fun d => decide (d = '-')) l = m at hm
  have hp : List.rdropWhile (fun d => decide (d = '-')) m <+: m :=
    List.rdropWhile_prefix _ _
  cases m with
  | nil => simp [List.rdropWhile]
  | cons x xs =>
    simp only [List.head?_cons, decide_eq_false_iff_not] at hm
    generalize List.rdropWhile (fun d => decide (d = '-')) (x :: xs) = r at hp
    cases r with
    | nil => simp
    | cons y ys =>
      have := (List.cons_prefix_cons.mp hp).1
      subst this
      simpa using hm

theorem specStrip_last (l : List Char) : (specStrip l).getLast? ≠ some '-' := by
  unfold specStrip
  generalize List.dropWhile (fun d => decide (d = '-')) l = m
  by_cases hl : List.rdropWhile (fun d => decide (d = '-')) m = []
  · rw [hl]; simp
  · have := List.rdropWhile_last_not (fun d => decide (d = '-')) m hl
    rw [List.getLast?_eq_getLast _ hl]
    intro he
    apply this
    simpa using Option.some.inj he

theorem specStrip_within (l : List Char) : specStrip l <:+: l := by
  unfold specStrip
  exact (( List.rdropWhile_prefix _ _).isInfix).trans (List.dropWhile_suffix _).isInfix

theorem normalizeChars_within (l : List Char) :
    normalizeChars l <:+: replaceSeparators (removeNonSlug (toLowerCase l)) := by
  unfold normalizeChars
  rw [stripHyphens_eq_specStrip]
  exact specStrip_within _

theorem normalizeChars_slug (l : List Char) : ∀ c ∈ normalizeChars l, isSlugChar c = true := by
  intro c hc
  have h1 := (normalizeChars_within l).subset hc
  exact replaceSeparatorsFrom_slug _
    (removeNonSlug_cases _ (toLowerCase_not_upper l)) false c h1

theorem normalizeChars_noDouble (l : List Char) : NoDoubleHyphen (normalizeChars l) :=
  List.Chain'.infix
    (replaceSeparatorsFrom_chain _ (removeNonSlug_cases _ (toLowerCase_not_upper l)) false).1
    (normalizeChars_within l)

theorem normalizeChars_head (l : List Char) : (normalizeChars l).head? ≠ some '-' := by
  unfold normalizeChars
  rw [stripHyphens_eq_specStrip]
  exact specStrip_head _

theorem normalizeChars_last (l : List Char) : (normalizeChars l).getLast? ≠ some '-' := by
  unfold normalizeChars
  rw [stripHyphens_eq_specStrip]
  exact specStrip_last _

/-! ## The normalisation fixes every text of canonical shape -/

theorem removeNonSlug_of_slug (l : List Char) (h : ∀ c ∈ l, isSlugChar c = true) :
    removeNonSlug l = l := by
  induction l with
  | nil => rfl
  | cons c cs ih =>
    have hk := isKept_of_slug (h c (List.mem_cons_self _ _))
    simp only [removeNonSlug, hk, if_true]
    rw [ih (fun d hd => h d (List.mem_cons_of_mem _ hd))]

theorem replaceSeparatorsFrom_of_canonical (l : List Char)
    (h : ∀ c ∈ l, isSlugChar c = true) (hc : NoDoubleHyphen l) :
    replaceSeparatorsFrom false l = l ∧
      (l.head? ≠ some '-' → replaceSeparatorsFrom true l = l) := by
  induction l with
  | nil => simp [replaceSeparatorsFrom]
  | cons c cs ih =>
    unfold NoDoubleHyphen at hc
    rw [List.chain'_cons'] at hc
    have ih2 := ih (fun d hd => h d (List.mem_cons_of_mem _ hd)) hc.2
    rcases (isSlugChar_iff c).mp (h c (List.mem_cons_self _ _)) with ha | ha
    · have hs := isSeparator_of_alnum ha
      simp only [replaceSeparatorsFrom, hs, Bool.false_eq_true, if_false, ih2.1]
      exact ⟨trivial, fun _ => trivial⟩
    · subst ha
      have hs : isSeparator '-' = true := isSeparator_hyphen
      have hcs : cs.head? ≠ some '-' := by
        intro he
        exact hc.1 '-' (by simp [he]) ⟨rfl, rfl⟩
      simp only [replaceSeparatorsFrom, hs, if_true, Bool.false_eq_true, if_false, ih2.2 hcs]
      exact ⟨trivial, fun hh => absurd rfl hh⟩

theorem specStrip_of_canonical (l : List Char) (hh : l.head? ≠ some '-')
    (ht : l.getLast? ≠ some '-') : specStrip l = l := by
  unfold specStrip
  have h1 : List.dropWhile (fun d => decide (d = '-')) l = l := by
    cases l with
    | nil => rfl
    | cons x xs =>
      have hx : x ≠ '-' := by simpa using hh
      simp [List.dropWhile_cons, hx]
  rw [h1, List.rdropWhile_eq_self_iff]
  intro hl he
  apply ht
  rw [List.getLast?_eq_getLast _ hl]
  simpa using he

theorem normalizeChars_of_canonical (l : List Char) (h : ∀ c ∈ l, isSlugChar c = true)
    (hc : NoDoubleHyphen l) (hh : l.head? ≠ some '-') (ht : l.getLast? ≠ some '-') :
    normalizeChars l = l := by
  unfold normalizeChars
  rw [toLowerCase_of_slug l h, removeNonSlug_of_slug l h]
  unfold replaceSeparators
  rw [(replaceSeparatorsFrom_of_canonical l h hc).1, stripHyphens_eq_specStrip,
    specStrip_of_canonical l hh ht]

theorem normalizeChars_idempotent (l : List Char) :
    normalizeChars (normalizeChars l) = normalizeChars l :=
  normalizeChars_of_canonical _ (normalizeChars_slug l) (normalizeChars_noDouble l)
    (normalizeChars_head l) (normalizeChars_last l)

theorem noDouble_no_pair (l : List Char) (h : NoDoubleHyphen l) : ¬ ['-', '-'] <:+: l := by
  intro hi
  have := List.Chain'.infix h hi
  simp [List.chain'_cons'] at this

/-! ## Properties of `slugify` -/

/-- C1: for every page name and heading text, `slugify` returns the page name, a slash and
the normalisation of the specification (lowercase, remove characters outside word
characters, whitespace and hyphen, collapse every run of whitespace, underscore and hyphen to
one hyphen, strip leading and trailing hyphens); the two examples of the specification
evaluate as it says. -/
theorem slugify_eq_specNormalize (pageName s : String) :
    slugify pageName s = pageName ++ "/" ++ specNormalize s ∧
    slugify "docs" "Hello, World!" = "docs/hello-world" ∧
    slugify "p" "  multiple   spaces--and__underscores  "
      = "p/multiple-spaces-and-underscores" := by
  refine ⟨?_, by decide, by decide⟩
  unfold slugify
  rw [normalize_eq_specNormalize]

/-- C2, as stated, fails: the heading text `x` is a letter, yet under the page name `Docs`
the result `Docs/x` contains `D`, which is neither in `[a-z0-9-]` nor the separator. -/
theorem slugify_pageName_counterexample :
    "x".data.all isPlainHeadingChar = true ∧
    slugify "Docs" "x" = "Docs/x" ∧
    ¬ ((slugify "Docs" "x").data.all (fun c => isSlugChar c || decide (c = '/')) = true) := by
  decide

/-- C2, amended: for every page name and every heading text, the result of `slugify` is the
page name copied as it is, one slash, and a text all of whose characters are in
`[a-z0-9-]`. -/
theorem slugify_chars (pageName s : String) :
    (slugify pageName s).data = pageName.data ++ '/' :: (normalize s).data ∧
    (normalize s).data.all isSlugChar = true := by
  refine ⟨?_, ?_⟩
  · simp only [slugify, String.data_append, List.append_assoc]
    rfl
  · rw [List.all_eq_true]
    exact normalizeChars_slug s.data

/-- C10: the part of `slugify(s)` after the page name and the slash does not start with a
hyphen, does not end with one, has no two hyphens next to each other, and normalising it
again returns it unchanged. -/
theorem slugify_canonical (pageName s : String) :
    slugify pageName s = pageName ++ "/" ++ normalize s ∧
    (normalize s).data.head? ≠ some '-' ∧
    (normalize s).data.getLast? ≠ some '-' ∧
    ¬ (['-', '-'] <:+: (normalize s).data) ∧
    normalize (normalize s) = normalize s := by
  refine ⟨rfl, normalizeChars_head _, normalizeChars_last _,
    noDouble_no_pair _ (normalizeChars_noDouble _), ?_⟩
  show String.mk (normalizeChars (normalizeChars s.data)) = String.mk (normalizeChars s.data)
  rw [normalizeChars_idempotent]

/-! ## Properties of the heading collector -/

theorem foldl_anchorCallback_calls (events : List (Token × AnchorInfo)) (st : CollectorState) :
    (events.foldl (fun acc e => anchorCallback acc e.1 e.2) st).calls =
      st.calls ++ events.map (fun e =>
        { Title := e.2.title, Anchor := e.2.slug, HeadingLevel := e.1.tag }) := by
  induction events generalizing st with
  | nil => simp
  | cons e es ih =>
    simp only [List.foldl_cons, List.map_cons]
    rw [ih]
    simp [anchorCallback]

/-- C3: after `render(page1, in1)` followed by `render(page2, in2)`, `getHeadings()` is
`JSON.stringify` of the array that holds, for each callback of the second render and in the
order in which they fired, the object with `Title`, `Anchor` and `HeadingLevel` taken from
`info.title`, `info.slug` and `token.tag`; nothing of the first render remains, and
`pageName` is the second page name. -/
theorem getHeadings_after_second_render (md : MarkdownRenderer) (rt : Runtime)
    (st : CollectorState) (page1 in1 page2 in2 : String) :
    getHeadings rt (render md (render md st page1 in1).2 page2 in2).2 =
      rt.jsonStringify (.array
        ((md.run (slugify page2) in2).2.map (fun e =>
          .object [("Title", .str e.2.title), ("Anchor", .str e.2.slug),
            ("HeadingLevel", .str e.1.tag)]))) ∧
    (render md (render md st page1 in1).2 page2 in2).2.calls =
      (md.run (slugify page2) in2).2.map (fun e =>
        { Title := e.2.title, Anchor := e.2.slug, HeadingLevel := e.1.tag }) ∧
    (render md (render md st page1 in1).2 page2 in2).2.pageName = page2 := by
  have hcalls : (render md (render md st page1 in1).2 page2 in2).2.calls =
      (md.run (slugify page2) in2).2.map (fun e =>
        { Title := e.2.title, Anchor := e.2.slug, HeadingLevel := e.1.tag }) := by
    simp [render, foldl_anchorCallback_calls]
  have hname : ∀ (events : List (Token × AnchorInfo)) (acc : CollectorState),
      (events.foldl (fun acc e => anchorCallback acc e.1 e.2) acc).pageName = acc.pageName := by
    intro events
    induction events with
    | nil => intro acc; rfl
    | cons e es ih => intro acc; simp only [List.foldl_cons]; rw [ih]; rfl
  refine ⟨?_, hcalls, ?_⟩
  · unfold getHeadings
    rw [hcalls]
    simp [callsValue, List.map_map, Function.comp_def]
  · simp only [render]
    rw [hname]

/-! ## Properties of the callout plugin -/

theorem modify_at_length {α : Type} (f : α → α) (before after : List α) (x : α) :
    List.modify f before.length (before ++ x :: after) = before ++ f x :: after := by
  induction before with
  | nil => rfl
  | cons b bs ih => simp [ih]

theorem attrPush_attrs (token : Token) (attrData : String × String) :
    token.attrPush attrData =
      { token with attrs := some (token.attrs.getD [] ++ [attrData]) } := by
  cases hattrs : token.attrs <;> simp [Token.attrPush, hattrs]

/-- C4: once `setupLinks` ran, the rule in `md.renderer.rules.link_open` hands the call to
the rule that was there before (or to `selfRender`), after pushing the pair
`class`, `alert-link` onto the attributes of `tokens[idx]` when the counter is above 0, and
with the tokens untouched when it is not. -/
theorem link_open_rule {ε : Type} (md : MarkdownIt ε) (containerOpenCount : Int)
    (before after : List Token) (token : Token) (env : ε) :
    (setupLinks md).link_open = some (linkOpenRule (defaultLinkRender md)) ∧
    linkOpenRule (defaultLinkRender md) containerOpenCount
        (before ++ token :: after) before.length env =
      defaultLinkRender md containerOpenCount
        (before ++ (if containerOpenCount > 0 then
            { token with attrs := some (token.attrs.getD [] ++ [("class", "alert-link")]) }
          else token) :: after) before.length env ∧
    defaultLinkRender md =
      (match md.link_open with
       | some rule => rule
       | none => fun _ => selfRender md) := by
  refine ⟨rfl, ?_, rfl⟩
  unfold linkOpenRule isContainerOpen
  by_cases h : containerOpenCount > 0
  · have hm : List.modify (fun t => t.attrPush ("class", "alert-link")) before.length
        (before ++ token :: after) =
        before ++ { token with attrs := some (token.attrs.getD [] ++ [("class", "alert-link")]) }
          :: after := by
      rw [modify_at_length, attrPush_attrs]
    simp only [h, decide_True, if_true, hm]
  · simp only [h, decide_False, Bool.false_eq_true, if_false]

theorem callout_plugin_containers {ε : Type} (md : MarkdownIt ε) (options : Option Options) :
    (callout_plugin md options).containers = md.containers ++
      [("success", calloutRender "success"), ("info", calloutRender "info"),
       ("warning", calloutRender "warning"), ("danger", calloutRender "danger"),
       ("alert-success", alertRender "alert-success"), ("alert-info", alertRender "alert-info"),
       ("alert-warning", alertRender "alert-warning"),
       ("alert-danger", alertRender "alert-danger")] := by
  unfold callout_plugin init
  simp only []
  split <;> simp [setupLinks, setupContainerCallouts, setupContainer]

theorem renderContainerToken_plugin {ε : Type} (md : MarkdownIt ε) (options : Option Options)
    (name : String) (hname : name ∈ containerNames) (token : Token) (containerOpenCount : Int) :
    renderContainerToken (callout_plugin md options) containerOpenCount (name, token) =
      if token.nesting = 1 then containerOpenCount + 1 else containerOpenCount - 1 := by
  unfold renderContainerToken containerRule
  rw [callout_plugin_containers]
  simp only [containerNames, List.mem_cons, List.mem_singleton, List.not_mem_nil, or_false]
    at hname
  rcases hname with h | h | h | h | h | h | h | h <;> subst h <;>
    by_cases hn : token.nesting = 1 <;>
    simp [List.lookup, calloutRender, alertRender, hn]

theorem renderContainerTokens_append {ε : Type} (md : MarkdownIt ε) (c : Int)
    (a b : List (String × Token)) :
    renderContainerTokens md c (a ++ b) =
      renderContainerTokens md (renderContainerTokens md c a) b := by
  simp [renderContainerTokens, List.foldl_append]

theorem openToken_step {ε : Type} (md : MarkdownIt ε) (options : Option Options)
    (name : String) (hname : name ∈ containerNames) (c : Int) :
    renderContainerToken (callout_plugin md options) c (name, openToken name) = c + 1 := by
  rw [renderContainerToken_plugin md options name hname]
  simp [openToken]

theorem closeToken_step {ε : Type} (md : MarkdownIt ε) (options : Option Options)
    (name : String) (hname : name ∈ containerNames) (c : Int) :
    renderContainerToken (callout_plugin md options) c (name, closeToken name) = c - 1 := by
  rw [renderContainerToken_plugin md options name hname]
  simp [closeToken]

theorem balanced_counter {ε : Type} (md : MarkdownIt ε) (options : Option Options)
    (es : List (String × Token)) (h : Balanced containerNames es) :
    ∀ c : Int, renderContainerTokens (callout_plugin md options) c es = c ∧
      ∀ n, c ≤ renderContainerTokens (callout_plugin md options) c (es.take n) := by
  induction h with
  | nil =>
    intro c
    simp [renderContainerTokens]
  | nest name inner hname _ ih =>
    intro c
    have hrun : ∀ k (l : List (String × Token)),
        renderContainerTokens (callout_plugin md options) k ((name, openToken name) :: l) =
          renderContainerTokens (callout_plugin md options) (k + 1) l := by
      intro k l
      simp only [renderContainerTokens, List.foldl_cons]
      rw [openToken_step md options name hname]
    constructor
    · rw [List.cons_append, hrun, renderContainerTokens_append, (ih (c + 1)).1]
      simp only [renderContainerTokens, List.foldl_cons, List.foldl_nil]
      rw [closeToken_step md options name hname]
      omega
    · intro n
      cases n with
      | zero => simp [renderContainerTokens]
      | succ m =>
        rw [List.cons_append, List.take_succ_cons, hrun, List.take_append_eq_append_take,
          renderContainerTokens_append]
        have h1 := (ih (c + 1)).2 m
        generalize renderContainerTokens (callout_plugin md options) (c + 1)
          (List.take m inner) = r at h1
        cases hk : m - inner.length with
        | zero => simp [renderContainerTokens]; omega
        | succ k =>
          simp only [List.take_succ_cons, List.take_nil, renderContainerTokens,
            List.foldl_cons, List.foldl_nil]
          rw [closeToken_step md options name hname]
          omega
  | append a b _ _ iha ihb =>
    intro c
    constructor
    · rw [renderContainerTokens_append, (iha c).1, (ihb c).1]
    · intro n
      rw [List.take_append_eq_append_take, renderContainerTokens_append]
      have h1 := (iha c).2 n
      have h2 := (ihb (renderContainerTokens (callout_plugin md options) c (List.take n a))).2
        (n - a.length)
      omega

/-- C5: with the plugin installed, rendering a container token of any of the eight names
adds 1 to the counter when its nesting is 1 and subtracts 1 otherwise; so over a properly
nested sequence of open and close tokens that starts at 0 the counter is never negative and
ends at 0, and over open, open, close, close it is 1 after the first open and 0 at the end. -/
theorem counter_of_balanced {ε : Type} (md : MarkdownIt ε) (options : Option Options)
    (es : List (String × Token)) (h : Balanced containerNames es) :
    (∀ name ∈ containerNames, ∀ (token : Token) (c : Int),
      renderContainerToken (callout_plugin md options) c (name, token) =
        if token.nesting = 1 then c + 1 else c - 1) ∧
    (∀ n, 0 ≤ renderContainerTokens (callout_plugin md options) 0 (es.take n)) ∧
    renderContainerTokens (callout_plugin md options) 0 es = 0 ∧
    renderContainerTokens (callout_plugin md options) 0 [("success", openToken "success")] = 1 ∧
    renderContainerTokens (callout_plugin md options) 0 nestedExample = 0 := by
  have hstep := renderContainerToken_plugin md options
  refine ⟨fun name hname token c => hstep name hname token c,
    (balanced_counter md options es h 0).2, (balanced_counter md options es h 0).1, ?_, ?_⟩
  · simp only [renderContainerTokens, List.foldl_cons, List.foldl_nil]
    rw [openToken_step md options "success" (by decide)]
    rfl
  · simp only [nestedExample, renderContainerTokens, List.foldl_cons, List.foldl_nil]
    rw [openToken_step md options "success" (by decide),
      openToken_step md options "info" (by decide),
      closeToken_step md options "info" (by decide),
      closeToken_step md options "success" (by decide)]
    rfl

/-- Instance of `counter_of_balanced` at a success callout that holds an info callout. -/
theorem counter_of_balanced_witness :
    Balanced containerNames nestedExample ∧
    (∀ n, 0 ≤ renderContainerTokens (callout_plugin bareMarkdownIt none) 0
      (nestedExample.take n)) ∧
    renderContainerTokens (callout_plugin bareMarkdownIt none) 0 nestedExample = 0 := by
  have hb : Balanced containerNames nestedExample :=
    Balanced.nest "success" [("info", openToken "info"), ("info", closeToken "info")]
      (by decide) (Balanced.nest "info" [] (by decide) Balanced.nil)
  exact ⟨hb, (counter_of_balanced bareMarkdownIt none nestedExample hb).2.1,
    (counter_of_balanced bareMarkdownIt none nestedExample hb).2.2.1⟩

/-- C8, evaluated where it fails: when an options object without `links` is passed, the
eight containers are registered but `md.renderer.rules.link_open` is left as it was, so the
link wrapper is not installed; it is installed when no options are passed and when `links`
is `true`. -/
theorem callout_plugin_links_unset {ε : Type} (md : MarkdownIt ε) :
    (callout_plugin md (some { links := none })).link_open = md.link_open ∧
    (callout_plugin bareMarkdownIt (some { links := none })).link_open.isNone = true ∧
    (callout_plugin md (some { links := none })).containers.map Prod.fst =
      md.containers.map Prod.fst ++ containerNames ∧
    (callout_plugin md none).link_open = some (linkOpenRule (defaultLinkRender md)) ∧
    (callout_plugin md (some { links := some true })).link_open =
      some (linkOpenRule (defaultLinkRender md)) := by
  refine ⟨rfl, rfl, ?_, rfl, rfl⟩
  rw [callout_plugin_containers]
  simp [containerNames]

/-! ## Properties of the templates -/

theorem transform_of_absent (rt : Runtime) (templates : TemplateCache)
    (templateName data : String) (hreg : templates.lookup templateName = none)
    (hname : templateName ∉ objectPrototypeNames) :
    transform rt templates templateName data =
      .str ("Template:" ++ templateName ++ " not found.") := by
  simp [transform, TemplateCache.get, hreg, hname]

/-- C6, evaluated where it fails: `toString` was never compiled, yet `templates["toString"]`
finds the function inherited from `Object.prototype`, so `transform("toString", ..)` calls
it and returns `[object Object]`, a text with neither the template name nor `not found`. -/
theorem transform_toString (rt : Runtime) (templates : TemplateCache) (v : JsValue)
    (hreg : templates.lookup "toString" = none)
    (hparse : rt.jsonParse "\x7b\x7d" = .ok v)
    (hcall : rt.callObjectPrototype "toString" v = .ok (.str "[object Object]")) :
    transform rt templates "toString" "\x7b\x7d" = .str "[object Object]" ∧
    ¬ ("not found".data <:+: "[object Object]".data) ∧
    ¬ ("toString".data <:+: "[object Object]".data) := by
  refine ⟨?_, by decide, by decide⟩
  simp [transform, TemplateCache.get, hreg, objectPrototypeNames, hparse, Slot.call, hcall,
    bind, Except.bind]

/-- Instance of `transform_toString` at the empty cache. -/
theorem transform_toString_witness :
    transform exampleRuntime TemplateCache.empty "toString" "\x7b\x7d" =
      .str "[object Object]" :=
  (transform_toString exampleRuntime TemplateCache.empty (.object []) rfl rfl rfl).1

/-- C7, evaluated where it fails: when `JSON.parse` throws on the argument, `transform` and
`compileAndTransform` catch the exception and return an error text, but `createIndex`, which
has no `try`, hands the exception to its caller. -/
theorem createIndex_throws {σ : Type} (rt : Runtime) (hb : Handlebars) (lunr : Lunr σ)
    (index : σ) (templates : TemplateCache) (templateName templateContent data e : String)
    (t : Template) (hreg : templates.lookup templateName = some t)
    (hparse : rt.jsonParse data = .error e) :
    createIndex rt lunr index data = .error e ∧
    compileAndTransform rt hb templateContent data =
      "Cannot compile the template. Error:" ++ e ∧
    transform rt templates templateName data = .str ("Template:" ++ templateName ++
      " cannot be used. It could be due to errors in template or it is not registered correctly. Error:"
      ++ e) := by
  refine ⟨?_, ?_, ?_⟩
  · simp [createIndex, createIndexValue, hparse]
  · simp [compileAndTransform, hparse, bind, Except.bind]
  · simp [transform, TemplateCache.get, hreg, hparse, bind, Except.bind]

/-- Instance of `createIndex_throws` at a text that is not JSON. -/
theorem createIndex_throws_witness :
    createIndex exampleRuntime exampleLunr 0 "not json" =
      .error "SyntaxError: Unexpected token in JSON" :=
  (createIndex_throws exampleRuntime exampleHandlebars exampleLunr 0
    [("page", exampleHandlebars.compile "")] "page" "" "not json"
    "SyntaxError: Unexpected token in JSON" (exampleHandlebars.compile "") rfl rfl).1

/-! ## Properties of the search index -/

theorem insertIndexed_perm {α : Type} (n : Nat) (key : String) (value : α)
    (props : List (String × α)) :
    List.Perm (insertIndexed n key value props) ((key, value) :: props) := by
  induction props with
  | nil => exact List.Perm.refl _
  | cons q qs ih =>
    unfold insertIndexed
    split
    · split
      · exact (List.Perm.cons q ih).trans (List.Perm.swap _ _ _)
      · exact List.Perm.refl _
    · exact List.Perm.refl _

/-- A new key is added to the own properties, at some place. -/
theorem setOwn_perm_of_new {α : Type} (props : List (String × α)) (key : String) (value : α)
    (hnew : key ∉ props.map Prod.fst) :
    List.Perm (setOwn props key value) ((key, value) :: props) := by
  have hany : ¬ props.any (fun q => q.1 == key) = true := by
    intro h
    obtain ⟨q, hq, hk⟩ := List.any_eq_true.mp h
    exact hnew (by rw [← beq_iff_eq.mp hk]; exact List.mem_map_of_mem _ hq)
  unfold setOwn
  rw [if_neg hany]
  split
  · exact insertIndexed_perm _ _ _ _
  · exact List.perm_append_singleton _ _

/-- An existing key keeps its place, only its value changes. -/
theorem setOwn_keys_of_old {α : Type} (props : List (String × α)) (key : String) (value : α)
    (hold : key ∈ props.map Prod.fst) :
    (setOwn props key value).map Prod.fst = props.map Prod.fst := by
  have hany : props.any (fun q => q.1 == key) = true := by
    obtain ⟨q, hq, hqk⟩ := List.mem_map.mp hold
    exact List.any_eq_true.mpr ⟨q, hq, by simp [hqk]⟩
  unfold setOwn
  rw [if_pos hany, List.map_map]
  apply List.map_congr_left
  intro q _
  by_cases hq : q.1 = key
  · simp [hq]
  · simp [hq]

theorem setOwn_keys {α : Type} (props : List (String × α)) (key : String) (value : α)
    (k : String) :
    k ∈ (setOwn props key value).map Prod.fst ↔ k ∈ props.map Prod.fst ∨ k = key := by
  by_cases hold : key ∈ props.map Prod.fst
  · rw [setOwn_keys_of_old props key value hold]
    constructor
    · exact Or.inl
    · rintro (h | h)
      · exact h
      · rw [h]; exact hold
  · rw [((setOwn_perm_of_new props key value hold).map Prod.fst).mem_iff]
    simp only [List.map_cons, List.mem_cons]
    tauto

theorem setOwn_keys_nodup {α : Type} (props : List (String × α)) (key : String) (value : α)
    (h : (props.map Prod.fst).Nodup) : ((setOwn props key value).map Prod.fst).Nodup := by
  by_cases hold : key ∈ props.map Prod.fst
  · rw [setOwn_keys_of_old props key value hold]
    exact h
  · rw [((setOwn_perm_of_new props key value hold).map Prod.fst).nodup_iff]
    simp only [List.map_cons]
    exact List.nodup_cons.mpr ⟨hold, h⟩

theorem setOwn_mem {α : Type} (props : List (String × α)) (key : String) (value : α)
    (k : String) (v : α) (h : (k, v) ∈ setOwn props key value) :
    (k, v) ∈ props ∨ (k = key ∧ v = value) := by
  by_cases hold : key ∈ props.map Prod.fst
  · have hany : props.any (fun q => q.1 == key) = true := by
      obtain ⟨q, hq, hqk⟩ := List.mem_map.mp hold
      exact List.any_eq_true.mpr ⟨q, hq, by simp [hqk]⟩
    unfold setOwn at h
    rw [if_pos hany] at h
    obtain ⟨q, hq, he⟩ := List.mem_map.mp h
    by_cases hk : (q.1 == key) = true
    · simp only [hk, if_true, Prod.mk.injEq] at he
      exact Or.inr ⟨he.1.symm, he.2.symm⟩
    · simp only [hk, Bool.false_eq_true, if_false] at he
      subst he
      exact Or.inl hq
  · have h2 := (setOwn_perm_of_new props key value hold).mem_iff.mp h
    rcases List.mem_cons.mp h2 with h3 | h3
    · simp only [Prod.mk.injEq] at h3
      exact Or.inr h3
    · exact Or.inl h3

/-- The object enumerates array indices first and ascending: the keys `b`, `2`, `1`, set in
this order, are listed as `1`, `2`, `b`. -/
theorem setOwn_lists_indices_first :
    (setOwn (setOwn (setOwn [] "b" 0) "2" 1) "1" 2) = [("1", 2), ("2", 1), ("b", 0)] := by
  decide

theorem getField_of_id (d id : JsValue) (name : String)
    (h : getField d "id" = .ok id) : ∃ v, getField d name = .ok v := by
  cases d <;> simp [getField] at h ⊢

/-- One round of the `forEach` callback on a document whose id has a string form other than
`__proto__`, the indexer not throwing on it. -/
theorem addDoc_keyed {σ : Type} (rt : Runtime) (lunr : Lunr σ)
    (acc : σ × List (String × JsValue)) (d id : JsValue)
    (hid : getField d "id" = .ok id) (hk : propertyKey rt id ≠ "__proto__")
    (hadd : ∃ i1, lunr.add acc.1 d = .ok i1) :
    ∃ index1 title href, getField d "title" = .ok title ∧ getField d "href" = .ok href ∧
      addDoc rt lunr acc d =
        .ok (index1, setOwn acc.2 (propertyKey rt id)
          (.object [("title", title), ("href", href)])) := by
  obtain ⟨index1, h1⟩ := hadd
  obtain ⟨title, ht⟩ := getField_of_id d id "title" hid
  obtain ⟨href, hh⟩ := getField_of_id d id "href" hid
  refine ⟨index1, title, href, ht, hh, ?_⟩
  simp only [addDoc, h1, hid, ht, hh, bind, Except.bind, pure, Except.pure, storeSet, hk,
    if_false]

/-- Over documents none of whose ids has the string form `__proto__`, and with an indexer
that does not throw on them, the loop runs to its end; the keys of the store are then the
keys it had plus exactly the string forms of the ids of the documents, no key occurs twice,
and every entry is one it had or holds the title and href of a document whose id has that
string form. -/
theorem addDocs_store {σ : Type} (rt : Runtime) (lunr : Lunr σ) (docs : List JsValue) :
    ∀ (acc : σ × List (String × JsValue)),
    (∀ d ∈ docs, ∃ id, getField d "id" = .ok id ∧ propertyKey rt id ≠ "__proto__") →
    (∀ i, ∀ d ∈ docs, ∃ i1, lunr.add i d = .ok i1) →
    ∃ result, addDocs rt lunr acc docs = .ok result ∧
    (∀ k, k ∈ result.2.map Prod.fst ↔
      k ∈ acc.2.map Prod.fst ∨
        ∃ d ∈ docs, ∃ id, getField d "id" = .ok id ∧ propertyKey rt id = k) ∧
    ((acc.2.map Prod.fst).Nodup → (result.2.map Prod.fst).Nodup) ∧
    (∀ k v, (k, v) ∈ result.2 → (k, v) ∈ acc.2 ∨
      ∃ d ∈ docs, ∃ id title href, getField d "id" = .ok id ∧ propertyKey rt id = k ∧
        getField d "title" = .ok title ∧ getField d "href" = .ok href ∧
        v = .object [("title", title), ("href", href)]) := by
  induction docs with
  | nil =>
    intro acc _ _
    exact ⟨acc, rfl, by simp, id, fun k v h => Or.inl h⟩
  | cons d ds ih =>
    intro acc hdocs hadd
    obtain ⟨id0, hid, hk0⟩ := hdocs d (List.mem_cons_self _ _)
    obtain ⟨index1, title, href, ht, hh, hstep⟩ :=
      addDoc_keyed rt lunr acc d id0 hid hk0 (hadd acc.1 d (List.mem_cons_self _ _))
    obtain ⟨result, hres, ih1, ih2, ih3⟩ :=
      ih (index1, setOwn acc.2 (propertyKey rt id0) (.object [("title", title), ("href", href)]))
        (fun x hx => hdocs x (List.mem_cons_of_mem _ hx))
        (fun i x hx => hadd i x (List.mem_cons_of_mem _ hx))
    refine ⟨result, ?_, ?_, ?_, ?_⟩
    · simp only [addDocs, hstep]
      exact hres
    · intro k
      rw [ih1 k, setOwn_keys]
      constructor
      · rintro ((h1 | h1) | ⟨x, hx, idx, hxid, hxk⟩)
        · exact Or.inl h1
        · exact Or.inr ⟨d, List.mem_cons_self _ _, id0, hid, h1.symm⟩
        · exact Or.inr ⟨x, List.mem_cons_of_mem _ hx, idx, hxid, hxk⟩
      · rintro (h1 | ⟨x, hx, idx, hxid, hxk⟩)
        · exact Or.inl (Or.inl h1)
        · rcases List.mem_cons.mp hx with rfl | hx
          · rw [hid] at hxid
            simp only [Except.ok.injEq] at hxid
            subst hxid
            exact Or.inl (Or.inr hxk.symm)
          · exact Or.inr ⟨x, hx, idx, hxid, hxk⟩
    · intro hnd
      exact ih2 (setOwn_keys_nodup _ _ _ hnd)
    · intro k v hkv
      rcases ih3 k v hkv with h1 | ⟨x, hx, idx, t, hr, h3⟩
      · rcases setOwn_mem _ _ _ _ _ h1 with h2 | ⟨h2, h3⟩
        · exact Or.inl h2
        · exact Or.inr ⟨d, List.mem_cons_self _ _, id0, title, href, hid, h2.symm, ht, hh, h3⟩
      · exact Or.inr ⟨x, List.mem_cons_of_mem _ hx, idx, t, hr, h3⟩

/-- C9, as stated, fails. The two documents of `collidingDocs` have distinct ids, the number
1 and the string `1`, and the store has the single key `1`, with the title and href of the
second. The one document of `protoDocsJson` has the id `__proto__`, and the store has no
key. -/
theorem createIndex_store_counterexample :
    (JsValue.num "1" ≠ JsValue.str "1") ∧
    createIndexValue exampleRuntime exampleLunr 0 collidingDocsJson =
      .ok (.object [("index", exampleLunr.toJSON 2),
        ("store", .object [("1", .object [("title", .str "b"), ("href", .str "y")])])], 2) ∧
    createIndexValue exampleRuntime exampleLunr 0 protoDocsJson =
      .ok (.object [("index", exampleLunr.toJSON 1), ("store", .object [])], 1) := by
  refine ⟨by simp, rfl, rfl⟩

/-- C9, amended: for every JSON array of documents none of whose ids has the string form
`__proto__`, with an indexer that does not throw on these documents, `createIndex` returns
the serialisation of an object whose store has as its keys exactly the string forms of the
ids of the documents (a string id is its own key), each once, and every entry of the store
holds the title and href of a document whose id has that string form, unchanged. -/
theorem createIndex_store {σ : Type} (rt : Runtime) (lunr : Lunr σ) (index : σ)
    (data : String) (docs : List JsValue)
    (hparse : rt.jsonParse data = .ok (.array docs))
    (hids : ∀ d ∈ docs, ∃ id, getField d "id" = .ok id ∧ propertyKey rt id ≠ "__proto__")
    (hadd : ∀ i, ∀ d ∈ docs, ∃ i1, lunr.add i d = .ok i1) :
    ∃ index1 store,
      createIndexValue rt lunr index data =
        .ok (.object [("index", lunr.toJSON index1), ("store", .object store)], index1) ∧
      createIndex rt lunr index data =
        .ok (rt.jsonStringify
          (.object [("index", lunr.toJSON index1), ("store", .object store)]), index1) ∧
      (∀ k, k ∈ store.map Prod.fst ↔
        ∃ d ∈ docs, ∃ id, getField d "id" = .ok id ∧ propertyKey rt id = k) ∧
      (store.map Prod.fst).Nodup ∧
      (∀ k v, (k, v) ∈ store → ∃ d ∈ docs, ∃ id title href,
        getField d "id" = .ok id ∧ propertyKey rt id = k ∧
        getField d "title" = .ok title ∧ getField d "href" = .ok href ∧
        v = .object [("title", title), ("href", href)]) := by
  obtain ⟨result, hres, h1, h2, h3⟩ := addDocs_store rt lunr docs (index, []) hids hadd
  have hvalue : createIndexValue rt lunr index data =
      .ok (.object [("index", lunr.toJSON result.1), ("store", .object result.2)],
        result.1) := by
    simp only [createIndexValue, hparse, hres]
  refine ⟨result.1, result.2, hvalue, ?_, ?_, h2 (by simp), ?_⟩
  · simp only [createIndex, hvalue]
  · intro k
    rw [h1 k]
    simp
  · intro k v hkv
    rcases h3 k v hkv with h | h
    · simp at h
    · exact h

/-- Instance of `createIndex_store` at two documents with the ids `a` and `b`. -/
theorem createIndex_store_witness :
    ∃ index1 store,
      createIndexValue exampleRuntime exampleLunr 0 plainDocsJson =
        .ok (.object [("index", exampleLunr.toJSON index1), ("store", .object store)],
          index1) ∧
      (∀ k, k ∈ store.map Prod.fst ↔
        ∃ d ∈ plainDocs, ∃ id, getField d "id" = .ok id ∧ propertyKey exampleRuntime id = k) ∧
      (store.map Prod.fst).Nodup := by
  have hids : ∀ d ∈ plainDocs, ∃ id, getField d "id" = .ok id ∧
      propertyKey exampleRuntime id ≠ "__proto__" := by
    intro d hd
    simp only [plainDocs, List.mem_cons, List.mem_singleton, List.not_mem_nil, or_false] at hd
    rcases hd with rfl | rfl
    · exact ⟨.str "a", rfl, by decide⟩
    · exact ⟨.str "b", rfl, by decide⟩
  obtain ⟨index1, store, h1, _, h3, h4, _⟩ :=
    createIndex_store exampleRuntime exampleLunr 0 plainDocsJson plainDocs rfl hids
      (fun i _ _ => ⟨i + 1, rfl⟩)
  exact ⟨index1, store, h1, h3, h4⟩

end Catalogue
